import Mathlib

/-!
Verification of the SimpleConvertHHI row-transformation and batch-submission
pipeline (server.js and its sibling revisions).  The JavaScript source is
shallowly embedded: JS strings become Lean String values manipulated as
character lists, JS objects become association lists in insertion order,
thrown exceptions become Option / Except values, and the remote HTTP service
becomes an oracle function supplied as a parameter.  All definitions are
executable so that concrete runs can be checked by the kernel.

Modelling notes, applying throughout:
  * JS number values produced by parseInt are embedded as exact integers
    (the source only handles small id lists, far below 2^53).
  * JSON numeric literals are kept as their source token (constructor jnum);
    no claim depends on float semantics.
  * Whitespace sets cover the common JS whitespace characters (space, tab,
    newline, carriage return, vertical tab, form feed, no-break space,
    BOM); exotic Unicode space code points are not modelled and appear in
    no claim.  Case folding is ASCII, as in every input of the claims.
-/

namespace SCV

/-- Decimal digit test on code points (JS: characters 0-9). -/
def isDigit10 (c : Char) : Bool := 48 ≤ c.toNat && c.toNat ≤ 57

/-- The whitespace class used by JS `\s`, `String.prototype.trim` and
`parseInt`, restricted to the common code points (see modelling notes). -/
def jsWs (c : Char) : Bool :=
  c.toNat = 32 || c.toNat = 9 || c.toNat = 10 || c.toNat = 13 ||
  c.toNat = 11 || c.toNat = 12 || c.toNat = 160 || c.toNat = 65279

/-- Drop leading and trailing JS whitespace from a character list. -/
def trimChars (l : List Char) : List Char :=
  ((l.dropWhile jsWs).reverse.dropWhile jsWs).reverse

/-- JS `String.prototype.trim`. -/
def jsTrim (s : String) : String := String.mk (trimChars s.data)

/-- JS `String.prototype.toLowerCase` (ASCII range, per modelling notes). -/
def lowerStr (s : String) : String := String.mk (s.data.map Char.toLower)

/-- JS `String.prototype.split` with a one-character separator:
`"".split(c)` is `[""]`, separators at the ends produce empty pieces. -/
def splitOnCharAux (sep : Char) : List Char → List Char → List (List Char)
  | [], acc => [acc.reverse]
  | c :: rest, acc =>
    if c = sep then acc.reverse :: splitOnCharAux sep rest []
    else splitOnCharAux sep rest (c :: acc)

/-- `splitOnCharAux` wrapped for whole strings. -/
def splitOnStr (sep : Char) (s : String) : List String :=
  (splitOnCharAux sep s.data []).map String.mk

/-- JS `String.prototype.replace` with a global one-character pattern and a
fixed replacement, e.g. `.replace(/\{/g, '{"')`. -/
def replaceChar (pat : Char) (rep : List Char) : List Char → List Char
  | [] => []
  | c :: rest =>
    if c = pat then rep ++ replaceChar pat rep rest
    else c :: replaceChar pat rep rest

/-- Value of a list of decimal digit characters, most significant first. -/
def digitsToNat (ds : List Char) : Nat :=
  ds.foldl (fun n c => 10 * n + (c.toNat - 48)) 0

/-- JS `parseInt(s, 10)`: skip leading whitespace, read an optional sign and
then the longest run of decimal digits; `none` models `NaN` (no digits). -/
def jsParseInt (s : String) : Option Int :=
  let cs := s.data.dropWhile jsWs
  let sc : Int × List Char :=
    if cs.head? = some '-' then (-1, cs.tail)
    else if cs.head? = some '+' then (1, cs.tail)
    else (1, cs)
  let ds := sc.2.takeWhile isDigit10
  if ds.isEmpty then none else some (sc.1 * (digitsToNat ds : Int))

/-- A JavaScript runtime value as it occurs in a payload: strings, parseInt
integers, JSON numeric literals kept as their token, booleans, null, arrays
and objects (association lists in insertion order). -/
inductive JsValue where
  | str (s : String)
  | int (n : Int)
  | jnum (tok : String)
  | bool (b : Bool)
  | null
  | arr (items : List JsValue)
  | obj (entries : List (String × JsValue))
  deriving Repr

/-- JS object / Map assignment `o[k] = v`: overwrite in place when the key
exists, append otherwise. -/
def assocSet {β : Type} (o : List (String × β)) (k : String) (v : β) :
    List (String × β) :=
  if o.any (fun q => q.1 == k) then
    o.map (fun q => if q.1 == k then (k, v) else q)
  else o ++ [(k, v)]

/-- JS property read `o[k]`: `none` models `undefined`. -/
def assocGet {β : Type} (o : List (String × β)) (k : String) : Option β :=
  (o.find? (fun q => q.1 == k)).map (fun q => q.2)

/-- A transformed submission payload (a JS object). -/
abbrev Payload := List (String × JsValue)

/-- A raw input row: field name to raw string value, in object key order. -/
abbrev RawRow := List (String × String)

/-- JS truthiness of a payload value. -/
def jsTruthy : JsValue → Bool
  | .str s => s ≠ ""
  | .int n => n ≠ 0
  | .jnum tok =>
    -- a JSON numeric literal is falsy exactly when its value is zero:
    -- every digit before any exponent marker is 0
    !(((tok.data.takeWhile (fun c => c ≠ 'e' ∧ c ≠ 'E')).filter isDigit10).all
        (fun c => c = '0'))
  | .bool b => b
  | .null => false
  | .arr _ => true
  | .obj _ => true

/-- JS falsiness of `o.k` when the read may yield `undefined`. -/
def jsFalsyOpt (v : Option JsValue) : Bool :=
  match v with
  | none => true
  | some w => !jsTruthy w

/-! ### JSON.parse
A recursive-descent model of `JSON.parse`, used by meta-field Strategy A.
`none` models a thrown SyntaxError.  Numeric literals keep their source
token; `\uXXXX` escapes outside the scalar range degrade to NUL (surrogate
pairs appear in no claim). -/

/-- The insignificant whitespace of the JSON grammar. -/
def jsonWs (c : Char) : Bool :=
  c.toNat = 32 || c.toNat = 9 || c.toNat = 10 || c.toNat = 13

/-- Hexadecimal digit value. -/
def hexVal (c : Char) : Option Nat :=
  if isDigit10 c then some (c.toNat - 48)
  else if 97 ≤ c.toNat ∧ c.toNat ≤ 102 then some (c.toNat - 87)
  else if 65 ≤ c.toNat ∧ c.toNat ≤ 70 then some (c.toNat - 55)
  else none

/-- Body of a JSON string literal after the opening quote; `acc` holds the
characters read so far, reversed. -/
def parseJStrAux : List Char → List Char → Option (String × List Char)
  | [], _ => none
  | '"' :: rest, acc => some (String.mk acc.reverse, rest)
  | '\\' :: '"' :: rest, acc => parseJStrAux rest ('"' :: acc)
  | '\\' :: '\\' :: rest, acc => parseJStrAux rest ('\\' :: acc)
  | '\\' :: '/' :: rest, acc => parseJStrAux rest ('/' :: acc)
  | '\\' :: 'b' :: rest, acc => parseJStrAux rest ('\x08' :: acc)
  | '\\' :: 'f' :: rest, acc => parseJStrAux rest ('\x0c' :: acc)
  | '\\' :: 'n' :: rest, acc => parseJStrAux rest ('\n' :: acc)
  | '\\' :: 'r' :: rest, acc => parseJStrAux rest ('\x0d' :: acc)
  | '\\' :: 't' :: rest, acc => parseJStrAux rest ('\t' :: acc)
  | '\\' :: 'u' :: h1 :: h2 :: h3 :: h4 :: rest, acc =>
    (match hexVal h1, hexVal h2, hexVal h3, hexVal h4 with
     | some a, some b, some c, some d =>
       parseJStrAux rest (Char.ofNat (((a * 16 + b) * 16 + c) * 16 + d) :: acc)
     | _, _, _, _ => none)
  | '\\' :: _, _ => none
  | c :: rest, acc =>
    if c.toNat < 32 then none else parseJStrAux rest (c :: acc)

/-- A JSON string literal starting at the opening quote. -/
def parseJStr : List Char → Option (String × List Char)
  | '"' :: rest => parseJStrAux rest []
  | _ => none

/-- Fraction and exponent suffix of a JSON number, given the token so far. -/
def parseNumSuffix (tok : List Char) (cs : List Char) :
    Option (String × List Char) :=
  let afterFrac : Option (List Char × List Char) :=
    match cs with
    | '.' :: r =>
      let ds := r.takeWhile isDigit10
      if ds.isEmpty then none
      else some (tok ++ '.' :: ds, r.dropWhile isDigit10)
    | _ => some (tok, cs)
  match afterFrac with
  | none => none
  | some (tok2, cs2) =>
    match cs2 with
    | c :: r =>
      if c = 'e' ∨ c = 'E' then
        let sr : List Char × List Char :=
          match r with
          | '+' :: r2 => (['+'], r2)
          | '-' :: r2 => (['-'], r2)
          | _ => ([], r)
        let ds := sr.2.takeWhile isDigit10
        if ds.isEmpty then none
        else some (String.mk (tok2 ++ c :: sr.1 ++ ds), sr.2.dropWhile isDigit10)
      else some (String.mk tok2, cs2)
    | [] => some (String.mk tok2, [])

/-- A JSON numeric literal: optional minus, integer part without leading
zeros, optional fraction and exponent.  Returns the token text. -/
def parseNumTok (cs : List Char) : Option (String × List Char) :=
  let ms : List Char × List Char :=
    match cs with
    | '-' :: r => (['-'], r)
    | _ => ([], cs)
  match ms.2 with
  | '0' :: r => parseNumSuffix (ms.1 ++ ['0']) r
  | c :: r =>
    if isDigit10 c then
      parseNumSuffix (ms.1 ++ c :: r.takeWhile isDigit10) (r.dropWhile isDigit10)
    else none
  | [] => none

mutual

/-- A JSON value whose first character is the head of the input; `fuel`
bounds the recursion depth and is set from the input length. -/
def parseVal : Nat → List Char → Option (JsValue × List Char)
  | 0, _ => none
  | fuel + 1, cs =>
    match cs with
    | '"' :: _ => (parseJStr cs).map (fun p => (JsValue.str p.1, p.2))
    | '{' :: rest =>
      (match rest.dropWhile jsonWs with
       | '}' :: r => some (.obj [], r)
       | rest1 => parseMembers fuel rest1 [])
    | '[' :: rest =>
      (match rest.dropWhile jsonWs with
       | ']' :: r => some (.arr [], r)
       | rest1 => parseElems fuel rest1 [])
    | 't' :: 'r' :: 'u' :: 'e' :: r => some (.bool true, r)
    | 'f' :: 'a' :: 'l' :: 's' :: 'e' :: r => some (.bool false, r)
    | 'n' :: 'u' :: 'l' :: 'l' :: r => some (.null, r)
    | _ => (parseNumTok cs).map (fun p => (JsValue.jnum p.1, p.2))

/-- Members of a JSON object, positioned at a key; duplicate keys overwrite
as in JS. -/
def parseMembers : Nat → List Char → List (String × JsValue) →
    Option (JsValue × List Char)
  | 0, _, _ => none
  | fuel + 1, cs, acc =>
    match parseJStr cs with
    | none => none
    | some (k, r1) =>
      match r1.dropWhile jsonWs with
      | ':' :: r2 =>
        (match parseVal fuel (r2.dropWhile jsonWs) with
         | none => none
         | some (v, r3) =>
           match r3.dropWhile jsonWs with
           | ',' :: r4 => parseMembers fuel (r4.dropWhile jsonWs) (assocSet acc k v)
           | '}' :: r4 => some (.obj (assocSet acc k v), r4)
           | _ => none)
      | _ => none

/-- Elements of a JSON array, positioned at a value. -/
def parseElems : Nat → List Char → List JsValue →
    Option (JsValue × List Char)
  | 0, _, _ => none
  | fuel + 1, cs, acc =>
    match parseVal fuel cs with
    | none => none
    | some (v, r1) =>
      match r1.dropWhile jsonWs with
      | ',' :: r2 => parseElems fuel (r2.dropWhile jsonWs) (acc ++ [v])
      | ']' :: r2 => some (.arr (acc ++ [v]), r2)
      | _ => none

end

/-- `JSON.parse`: a whole-input JSON value with surrounding whitespace;
`none` models a thrown SyntaxError. -/
def jsonParse (s : String) : Option JsValue :=
  let cs := s.data.dropWhile jsonWs
  match parseVal (cs.length + 1) cs with
  | some (v, rest) => if (rest.dropWhile jsonWs).isEmpty then some v else none
  | none => none

/-! ### The meta field's two parse strategies (mapRowToPayload) -/

/-- `.replace(/,\s*/g, '","')`: the Bool is true while skipping the
whitespace that followed a comma. -/
def replCommaWsAux : Bool → List Char → List Char
  | _, [] => []
  | skip, c :: rest =>
    if skip ∧ jsWs c then replCommaWsAux true rest
    else if c = ',' then '"' :: ',' :: '"' :: replCommaWsAux true rest
    else c :: replCommaWsAux false rest

/-- `.replace(/\s*\}/g, '"}')`, processed right to left so that the
whitespace run preceding each brace is consumed greedily: the Bool is true
while skipping whitespace that preceded a brace. -/
def replWsBraceRevAux : Bool → List Char → List Char
  | _, [] => []
  | skip, c :: rest =>
    if c = '}' then '}' :: '"' :: replWsBraceRevAux true rest
    else if skip ∧ jsWs c then replWsBraceRevAux true rest
    else c :: replWsBraceRevAux false rest

/-- `.replace(/\s*\}/g, '"}')` on a forward character list. -/
def replWsBrace (l : List Char) : List Char :=
  (replWsBraceRevAux false l.reverse).reverse

/-- `.replace(/"\s+"/g, '":"')` as a left-to-right scan: the state holds a
quote that has been read and not yet emitted together with the reversed
whitespace run after it; a closing quote after nonempty whitespace
completes a match and emits the quoted colon, consuming both quotes. -/
def replQWsQAux : Option (List Char) → List Char → List Char
  | none, [] => []
  | some ws, [] => '"' :: ws.reverse
  | none, c :: rest =>
    if c = '"' then replQWsQAux (some []) rest
    else c :: replQWsQAux none rest
  | some ws, c :: rest =>
    if jsWs c then replQWsQAux (some (c :: ws)) rest
    else if c = '"' then
      if ws.isEmpty then '"' :: replQWsQAux (some []) rest
      else '"' :: ':' :: '"' :: replQWsQAux none rest
    else '"' :: (ws.reverse ++ c :: replQWsQAux none rest)

/-- `.replace(/"\s+"/g, '":"')`. -/
def replQWsQ (l : List Char) : List Char := replQWsQAux none l

/-- Strategy A's mechanical quote insertion: the five chained
`String.replace` calls of the source, in order. -/
def coerceMeta (s : String) : String :=
  String.mk (replQWsQ (replWsBrace (replCommaWsAux false
    (replaceChar ':' ['"', ':', '"']
      (replaceChar '{' ['{', '"'] s.data)))))

/-- Strategy A: trim, coerce to JSON text, `JSON.parse`; `none` models the
caught SyntaxError. -/
def strategyA (s : String) : Option JsValue :=
  jsonParse (coerceMeta (jsTrim s))

/-- Strategy B's accumulated object: strip all braces, trim, split on
commas, split each pair on colons, keep pairs whose first two trimmed parts
are both nonempty. -/
def strategyBRun (s : String) : List (String × JsValue) :=
  let cleaned := trimChars (s.data.filter (fun c => c ≠ '{' ∧ c ≠ '}'))
  (splitOnCharAux ',' cleaned []).foldl
    (fun obj pair =>
      let parts := (splitOnCharAux ':' pair []).map (fun p => jsTrim (String.mk p))
      match parts.head?, parts.tail.head? with
      | some k, some v => if k ≠ "" ∧ v ≠ "" then assocSet obj k (.str v) else obj
      | _, _ => obj)
    []

/-- Strategy B as the source's try/catch sees it.  On string input the body
can never throw (every step is total on strings), so the result is always
`some`; the Option mirrors the catch that guards it in the source, which is
reachable only for non-string meta values outside the RawRow data model. -/
def strategyB (s : String) : Option JsValue := some (.obj (strategyBRun s))

/-- The meta branch of mapRowToPayload: try Strategy A, on failure Strategy
B, on failure keep the raw string. -/
def metaValue (s : String) : JsValue :=
  match strategyA s with
  | some v => v
  | none =>
    match strategyB s with
    | some v => v
    | none => .str s

/-- The meta branch written in the exception monad, mirroring the source's
try/catch nesting: a SyntaxError from JSON.parse propagates to the first
catch, a failure of Strategy B to the second, which keeps the raw string. -/
def metaValueE (s : String) : Except String JsValue :=
  match (match strategyA s with
         | some v => Except.ok v
         | none => Except.error "SyntaxError") with
  | .ok v => .ok v
  | .error _ =>
    match (match strategyB s with
           | some v => Except.ok v
           | none => Except.error "TypeError") with
    | .ok v => .ok v
    | .error _ => .ok (.str s)

/-! ### mapRowToPayload (src/server.js lines 138-246) -/

/-- The configured array fields. -/
def arrayFields : List String := ["products", "conditions", "information", "tags"]

/-- The array fields holding integers. -/
def intArrayFields : List String := ["conditions", "information"]

/-- The date fields converted to yyyy-mm-dd. -/
def dateFields : List String :=
  ["birthday_injured", "birthday", "date_of_accident", "incident_date"]

/-- JS `padStart(2, '0')`. -/
def padStart2 (s : String) : String :=
  if s.length < 2 then String.mk (List.replicate (2 - s.length) '0' ++ s.data)
  else s

/-- The formatDate helper: m/d/yyyy to yyyy-mm-dd when the value splits on
slashes into exactly three parts, otherwise the value unchanged. -/
def formatDate (s : String) : String :=
  if jsTrim s = "" then s
  else
    match splitOnStr '/' s with
    | [m, d, y] => y ++ "-" ++ padStart2 m ++ "-" ++ padStart2 d
    | _ => s

/-- The cleanArrayValue helper: `.replace(/^\[|\]$/g, '').trim()` — strip
one leading open bracket and one trailing close bracket, then trim. -/
def cleanArrayValue (s : String) : String :=
  let l1 := match s.data with
    | '[' :: rest => rest
    | l => l
  let l2 := match l1.reverse with
    | ']' :: rest => rest.reverse
    | _ => l1
  jsTrim (String.mk l2)

/-- The process-wide default overrides (environment variables); `none`
models an unset or empty — hence falsy — variable. -/
structure Env where
  company_uuid : Option String
  referred_from_company_uuid : Option String
  tags : Option String
  counsel : Option String
  feesplit : Option String
  totalfee : Option String

/-- The environment with every override absent. -/
def envNone : Env := ⟨none, none, none, none, none, none⟩

/-- One optional override applied to a payload. -/
def applyOverride (p : Payload) (k : String) (v : Option JsValue) : Payload :=
  match v with
  | some w => assocSet p k w
  | none => p

/-- The block of unconditional environment overrides at the end of
mapRowToPayload; each present value overwrites the row-supplied one. -/
def applyOverrides (env : Env) (p : Payload) : Payload :=
  applyOverride (applyOverride (applyOverride (applyOverride (applyOverride
    (applyOverride p
      "company_uuid" (env.company_uuid.map .str))
      "referred_from_company_uuid" (env.referred_from_company_uuid.map .str))
      "tags" (env.tags.map (fun t => .arr [.str t])))
      "counsel" (env.counsel.map .str))
      "feesplit" (env.feesplit.map .str))
      "totalfee" (env.totalfee.map .str)

/-- One iteration of the `for (const key in row)` loop: skip empty values,
parse meta, split/clean array fields (integer fields also parseInt and drop
NaN), reformat date fields, copy everything else. -/
def rowStep (p : Payload) (kv : String × String) : Payload :=
  let k := kv.1
  let v := kv.2
  if v = "" then p
  else if k = "meta" then assocSet p k (metaValue v)
  else if arrayFields.contains k then
    let cleaned := (splitOnStr ',' v).map cleanArrayValue
    if intArrayFields.contains k then
      assocSet p k (.arr ((cleaned.filterMap jsParseInt).map .int))
    else assocSet p k (.arr (cleaned.map .str))
  else if dateFields.contains k then assocSet p k (.str (formatDate v))
  else assocSet p k (.str v)

/-- The transform: iterate the row's fields in key order, then apply the
environment overrides. -/
def mapRowToPayload (env : Env) (row : RawRow) : Payload :=
  applyOverrides env (row.foldl rowStep [])

/-- `rowStep` in the exception monad: only the meta branch touches a
fallible operation. -/
def rowStepE (p : Payload) (kv : String × String) : Except String Payload :=
  let k := kv.1
  let v := kv.2
  if v = "" then pure p
  else if k = "meta" then do
    let mv ← metaValueE v
    pure (assocSet p k mv)
  else pure (rowStep p kv)

/-- The transform in the exception monad: an uncaught exception anywhere in
the per-field rules would surface here as `Except.error`. -/
def mapRowToPayloadE (env : Env) (row : RawRow) : Except String Payload := do
  let base ← row.foldlM rowStepE []
  pure (applyOverrides env base)

/-! ### The batch submitter (src/server.js lines 36-136, createCase and the
sequential upload loop).  The remote create call is an oracle
`create : Nat → Payload → Except String A`, indexed by row so that the
remote side may answer differently per call; its error string is the
already-extracted most specific message. -/

/-- A per-row submission outcome as createCase returns it. -/
inductive Outcome (A : Type) where
  | success (index : Nat) (data : A)
  | failure (index : Nat) (error : String)
  deriving Repr, DecidableEq

/-- The row index recorded in an outcome. -/
def Outcome.index {A : Type} : Outcome A → Nat
  | .success i _ => i
  | .failure i _ => i

/-- Whether the outcome is a success. -/
def Outcome.isSuccess {A : Type} : Outcome A → Bool
  | .success _ _ => true
  | .failure _ _ => false

/-- createCase: transform the row, throw (here: short-circuit to a failure
naming the field) when `payload.litigation_id` or `payload.status_id` is
falsy, otherwise invoke the remote create call. -/
def createCase {A : Type} (env : Env) (create : Nat → Payload → Except String A)
    (row : RawRow) (index : Nat) : Outcome A :=
  let payload := mapRowToPayload env row
  if jsFalsyOpt (assocGet payload "litigation_id") then
    .failure index "Missing required field: litigation_id"
  else if jsFalsyOpt (assocGet payload "status_id") then
    .failure index "Missing required field: status_id"
  else
    match create index payload with
    | .ok d => .success index d
    | .error e => .failure index e

/-- What the upload loop accumulates: the two outcome lists and the row
indices after which the pacing delay was invoked. -/
structure BatchResult (A : Type) where
  processed : List (Outcome A)
  failures : List (Outcome A)
  delays : List Nat
  deriving Repr

/-- The sequential upload loop from row index `i`: push each createCase
result onto processed or failures, and invoke the pacing delay after every
row except the last (`if (i < results.length - 1) await delay(...)`). -/
def submitGo {A : Type} (env : Env) (create : Nat → Payload → Except String A) :
    List RawRow → Nat → BatchResult A
  | [], _ => ⟨[], [], []⟩
  | row :: rest, i =>
    let result := createCase env create row i
    let r := submitGo env create rest (i + 1)
    { processed := if result.isSuccess then result :: r.processed else r.processed
      failures := if result.isSuccess then r.failures else result :: r.failures
      delays := if rest.isEmpty then r.delays else i :: r.delays }

/-- The whole batch, rows in input order starting at index 0. -/
def submitAll {A : Type} (env : Env) (create : Nat → Payload → Except String A)
    (rows : List RawRow) : BatchResult A :=
  submitGo env create rows 0

/-! ### Paginated fetch loops.  A page response carries the items (`none`
models an undefined `data.data`) and the optional continuation metadata;
the remote is an oracle from page number to response.  `fuel` bounds how
many iterations are observed; each iteration that runs records its page
request. -/

/-- An existing remote case record, restricted to the fields the duplicate
matchers read; `none` models an absent field. -/
structure CaseRec where
  fname_injured : Option String
  lname_injured : Option String
  email_injured : Option String
  deriving Repr, DecidableEq

/-- One page of the remote list response. -/
structure PageResp where
  data : Option (List CaseRec)
  total : Option Int
  last_page : Option Int
  hasMore : Option Bool

/-- JS truthiness of an optional numeric field (`if (data.total)`). -/
def truthyNum : Option Int → Bool
  | none => false
  | some n => n != 0

/-- What a fetch loop produces: the accumulated records and the trace of
page numbers requested. -/
structure FetchResult where
  cases : List CaseRec
  requests : List Nat
  deriving Repr, DecidableEq

/-- The loop of fetchAllSimplyConvertCases (src/unnamed/part_001 lines
379-410): continue while the page was nonempty and either full (100 items)
or flagged `hasMore === true`. -/
def fetchAllGo (pageFn : Nat → PageResp) : Nat → Nat → List CaseRec → FetchResult
  | 0, _, acc => ⟨acc, []⟩
  | fuel + 1, page, acc =>
    let cs := (pageFn page).data.getD []
    let acc2 := acc ++ cs
    let hasMore := decide (cs.length > 0) &&
      (decide (cs.length = 100) || (pageFn page).hasMore == some true)
    if hasMore then
      let r := fetchAllGo pageFn fuel (page + 1) acc2
      ⟨r.cases, page :: r.requests⟩
    else ⟨acc2, [page]⟩

/-- fetchAllSimplyConvertCases: pages start at 0. -/
def fetchAllCases (pageFn : Nat → PageResp) (fuel : Nat) : FetchResult :=
  fetchAllGo pageFn fuel 0 []

/-- The bulk-fetch loop of the part_002 /check-duplicates variant
(src/unnamed/part_002 lines 424-441): continuation prefers a truthy total
(continue while accumulated < total), then a truthy last_page (continue
while page < last_page), else a full page; there is no empty-page check. -/
def bulkFetchGo (pageFn : Nat → PageResp) : Nat → Nat → List CaseRec → FetchResult
  | 0, _, acc => ⟨acc, []⟩
  | fuel + 1, page, acc =>
    let resp := pageFn page
    let cs := resp.data.getD []
    let acc2 := acc ++ cs
    let hasMore :=
      if truthyNum resp.total then decide ((acc2.length : Int) < resp.total.getD 0)
      else if truthyNum resp.last_page then
        decide ((page : Int) < resp.last_page.getD 0)
      else decide (cs.length ≥ 100)
    if hasMore then
      let r := bulkFetchGo pageFn fuel (page + 1) acc2
      ⟨r.cases, page :: r.requests⟩
    else ⟨acc2, [page]⟩

/-- The part_002 bulk fetch: pages start at 1. -/
def bulkFetchCases (pageFn : Nat → PageResp) (fuel : Nat) : FetchResult :=
  bulkFetchGo pageFn fuel 1 []

/-! ### Duplicate detectors. -/

/-- `row.k1 || row.k2 || ''` for string-valued row fields. -/
def rowFallback (row : RawRow) (k1 k2 : String) : String :=
  let a := (assocGet row k1).getD ""
  if a ≠ "" then a else (assocGet row k2).getD ""

/-- The row's derived first name, lowercased (part_001 does not trim). -/
def rowFname (row : RawRow) : String := lowerStr (rowFallback row "fname_injured" "fname")

/-- The row's derived last name, lowercased. -/
def rowLname (row : RawRow) : String := lowerStr (rowFallback row "lname_injured" "lname")

/-- The row's derived email, lowercased. -/
def rowEmail (row : RawRow) : String := lowerStr (rowFallback row "email_injured" "email")

/-- One component of the part_001 match: an empty row component matches
anything; a present one requires the record field to be present, nonempty
and equal after lowercasing. -/
def compMatches (want : String) (field : Option String) : Bool :=
  want == "" ||
    (match field with
     | some s => s ≠ "" && lowerStr s == want
     | none => false)

/-- Whether one existing record matches the row's three components
(part_001 lines 434-440). -/
def caseMatchesRow (f l e : String) (c : CaseRec) : Bool :=
  compMatches f c.fname_injured && compMatches l c.lname_injured &&
    compMatches e c.email_injured

/-- The part_001 /check-duplicates row loop from index `i`: skip a row whose
three derived components are all empty, otherwise flag it when some fetched
case matches. -/
def checkDupGo (allCases : List CaseRec) : List RawRow → Nat → List Nat
  | [], _ => []
  | row :: rest, i =>
    let f := rowFname row
    let l := rowLname row
    let e := rowEmail row
    if f == "" && l == "" && e == "" then checkDupGo allCases rest (i + 1)
    else if allCases.any (caseMatchesRow f l e) then
      i :: checkDupGo allCases rest (i + 1)
    else checkDupGo allCases rest (i + 1)

/-- The part_001 three-field wildcard duplicate detector over a bulk-fetched
case set: the flagged 0-based row indices, in row order. -/
def checkDuplicates (rows : List RawRow) (allCases : List CaseRec) : List Nat :=
  checkDupGo allCases rows 0

/-- Modelled from the claim's wording for comparison only (not source): a
row is flagged when some existing record matches every non-empty
case-folded, whitespace-trimmed row component, empty components acting as
wildcards, rows with all three components empty never flagged. -/
def claimedDuplicate (row : RawRow) (recs : List CaseRec) : Bool :=
  let f := jsTrim (rowFname row)
  let l := jsTrim (rowLname row)
  let e := jsTrim (rowEmail row)
  if f == "" && l == "" && e == "" then false
  else
    recs.any (fun c =>
      let fieldOk : String → Option String → Bool := fun want field =>
        want == "" ||
          (match field with
           | some s => jsTrim (lowerStr s) == want
           | none => false)
      fieldOk f c.fname_injured && fieldOk l c.lname_injured &&
        fieldOk e c.email_injured)

/-- The email-keyed lookup map of the part_002 fast variant (lines 446-449):
records with a truthy email, keyed by lowercased email, later records
overwriting earlier ones. -/
def buildCaseMap (cases : List CaseRec) : List (String × CaseRec) :=
  cases.foldl
    (fun m c =>
      match c.email_injured with
      | some e => if e ≠ "" then assocSet m (lowerStr e) c else m
      | none => m)
    []

/-- One row task of the part_002 fast variant (lines 453-464): look the
row's email up in the map and compare first and last name; reading
`.toLowerCase()` of an absent record field throws (Except.error). -/
def emailRowCheck (caseMap : List (String × CaseRec)) (row : RawRow) (i : Nat) :
    Except String (Option Nat) :=
  let f := rowFname row
  let l := rowLname row
  let e := rowEmail row
  if f == "" && l == "" && e == "" then .ok none
  else
    match assocGet caseMap e with
    | none => .ok none
    | some c =>
      match c.fname_injured with
      | none => .error "TypeError"
      | some fn =>
        if lowerStr fn == f then
          match c.lname_injured with
          | none => .error "TypeError"
          | some ln => if lowerStr ln == l then .ok (some i) else .ok none
        else .ok none

/-- The part_002 email-keyed duplicate detector: run every row task and keep
the non-null indices; a thrown task rejects the whole check. -/
def emailDuplicates (rows : List RawRow) (cases : List CaseRec) :
    Except String (List Nat) :=
  let m := buildCaseMap cases
  (rows.enum.mapM (fun p => emailRowCheck m p.2 p.1)).map
    (fun l => l.filterMap id)

/-- Projection used to separate concrete meta objects: the string stored
under the gender key of an object value. -/
def genderVal (v : Option JsValue) : Option String :=
  match v with
  | some (.obj entries) =>
    (match assocGet entries "gender" with
     | some (.str s) => some s
     | _ => none)
  | _ => none

/-- The part_001 match between one component of a row identity and one
record field, as a proposition: empty row components are wildcards, a
present component requires a present, nonempty, case-insensitively equal
record field (no whitespace trimming). -/
def CompMatch (want : String) (field : Option String) : Prop :=
  want = "" ∨ ∃ s, field = some s ∧ s ≠ "" ∧ lowerStr s = want

/-- When the part_001 duplicate detector flags a row, as a proposition:
not all three derived components empty, and some existing record matches
each component. -/
def DupFlagged (row : RawRow) (recs : List CaseRec) : Prop :=
  ¬(rowFname row = "" ∧ rowLname row = "" ∧ rowEmail row = "") ∧
  ∃ c ∈ recs, CompMatch (rowFname row) c.fname_injured ∧
    CompMatch (rowLname row) c.lname_injured ∧
    CompMatch (rowEmail row) c.email_injured

/-! ## Helper lemmas -/

/-- The meta branch never propagates an exception: the exception-monad
version agrees with the total one. -/
theorem metaValueE_ok (s : String) : metaValueE s = Except.ok (metaValue s) := by
  unfold metaValueE metaValue
  cases hA : strategyA s
  · rfl
  · rfl

/-- One loop iteration never propagates an exception. -/
theorem rowStepE_ok (p : Payload) (kv : String × String) :
    rowStepE p kv = Except.ok (rowStep p kv) := by
  obtain ⟨k, v⟩ := kv
  show (if v = "" then pure p
    else if k = "meta" then do
      let mv ← metaValueE v
      pure (assocSet p k mv)
    else pure (rowStep p (k, v))) = Except.ok (rowStep p (k, v))
  split_ifs with h1 h2
  · simp only [rowStep, h1]
    rfl
  · rw [metaValueE_ok]
    simp only [rowStep, h1, h2]
    rfl
  · rfl

/-- The field fold never propagates an exception. -/
theorem foldlM_rowStepE (row : RawRow) :
    ∀ p : Payload, row.foldlM rowStepE p = Except.ok (row.foldl rowStep p) := by
  induction row with
  | nil => intro p; rfl
  | cons kv rest ih =>
    intro p
    simp only [List.foldlM, List.foldl]
    rw [rowStepE_ok]
    exact ih (rowStep p kv)

/-- createCase records the index it was called with. -/
theorem createCase_index {A : Type} (env : Env)
    (create : Nat → Payload → Except String A) (row : RawRow) (i : Nat) :
    (createCase env create row i).index = i := by
  show (if jsFalsyOpt (assocGet (mapRowToPayload env row) "litigation_id") then
      Outcome.failure i "Missing required field: litigation_id"
    else if jsFalsyOpt (assocGet (mapRowToPayload env row) "status_id") then
      Outcome.failure i "Missing required field: status_id"
    else match create i (mapRowToPayload env row) with
      | .ok d => Outcome.success i d
      | .error e => Outcome.failure i e).index = i
  split
  · rfl
  · split
    · rfl
    · split <;> rfl

/-! ## Claim C4: transform is total -/

/-- C4.  For every raw row and configuration, the transform written in the
exception monad (where a thrown JSON.parse SyntaxError would propagate if
uncaught) returns `Except.ok` of the pure transform: `mapRowToPayload`
never raises and always yields a payload, malformed dates, array values and
meta strings included. -/
theorem mapRowToPayload_total (env : Env) (row : RawRow) :
    mapRowToPayloadE env row = Except.ok (mapRowToPayload env row) := by
  unfold mapRowToPayloadE mapRowToPayload
  rw [foldlM_rowStepE]
  rfl

/-! ## Claim C3: the meta example and the raw-string fallback -/

/-- C3 counterexample.  On the row whose meta field is
"{gender: Male, age: 30}" the transform does NOT produce the mapping with
values "Male" and "30" (in either key order): Strategy A's quote insertion
keeps the space that followed each colon, so the values are " Male" and
" 30". -/
theorem meta_example_space_cex :
    assocGet (mapRowToPayload envNone [("meta", "{gender: Male, age: 30}")])
        "meta" ≠
      some (JsValue.obj [("gender", .str "Male"), ("age", .str "30")]) ∧
    assocGet (mapRowToPayload envNone [("meta", "{gender: Male, age: 30}")])
        "meta" ≠
      some (JsValue.obj [("age", .str "30"), ("gender", .str "Male")]) := by
  constructor
  · intro h
    exact absurd (congrArg genderVal h) (by decide)
  · intro h
    exact absurd (congrArg genderVal h) (by decide)

/-- C3 as amended.  The meta field "{gender: Male, age: 30}" parses via
Strategy A to the mapping with values " Male" and " 30" (each value keeps
the space that followed its colon), and whenever both strategies fail the
payload keeps the original raw string unchanged under the meta key (for
string-valued meta fields Strategy B never fails, so that fallback is
vacuous there). -/
theorem meta_example_amended :
    assocGet (mapRowToPayload envNone [("meta", "{gender: Male, age: 30}")])
        "meta" =
      some (JsValue.obj [("gender", .str " Male"), ("age", .str " 30")]) ∧
    (∀ s : String, strategyA s = none → strategyB s = none →
      metaValue s = .str s) := by
  refine ⟨rfl, ?_⟩
  intro s hA hB
  unfold metaValue
  rw [hA, hB]

/-! ## Claim C9: string-array fields split before bracket-stripping -/

/-- C9.  A string-array raw value is split on commas first and each piece is
bracket-stripped and trimmed independently: "[a, b],c" splits into "[a",
" b]" and "c", which clean to "a", "b" and "c", so the transformed payload
holds exactly the array of "a", "b", "c". -/
theorem string_array_split_before_strip :
    splitOnStr ',' "[a, b],c" = ["[a", " b]", "c"] ∧
    ["[a", " b]", "c"].map cleanArrayValue = ["a", "b", "c"] ∧
    assocGet (mapRowToPayload envNone [("products", "[a, b],c")]) "products" =
      some (.arr [.str "a", .str "b", .str "c"]) :=
  ⟨rfl, rfl, rfl⟩

/-! ## Claim C8: the two duplicate matchers are not extensionally equal -/

/-- C8.  The three-field wildcard matcher and the email-keyed map variant
disagree: a row with first and last name but no email is flagged by the
wildcard matcher against a record differing only in case, while the
email-keyed variant looks up the empty email, finds nothing, and flags
nothing. -/
theorem duplicate_variants_differ :
    checkDuplicates [[("fname", "Jane"), ("lname", "Doe")]]
        [⟨some "jane", some "doe", some "x@y.com"⟩] = [0] ∧
    emailDuplicates [[("fname", "Jane"), ("lname", "Doe")]]
        [⟨some "jane", some "doe", some "x@y.com"⟩] = .ok [] :=
  ⟨rfl, rfl⟩

/-! ## Claims C1 and C5: the upload loop's accounting and pacing -/

/-- The outcome indices of the loop started at `i` are exactly the indices
`i, i+1, ...` of the rows it was given, split between the two lists. -/
theorem submitGo_index_perm {A : Type} (env : Env)
    (create : Nat → Payload → Except String A) (rows : List RawRow) (i : Nat) :
    ((submitGo env create rows i).processed.map Outcome.index ++
      (submitGo env create rows i).failures.map Outcome.index).Perm
      (List.range' i rows.length) := by
  induction rows generalizing i with
  | nil => simp [submitGo]
  | cons row rest ih =>
    simp only [submitGo, List.length_cons]
    rw [List.range'_succ i rest.length 1]
    by_cases hs : (createCase env create row i).isSuccess
    · simp only [hs, if_pos, List.map_cons, List.cons_append]
      rw [createCase_index]
      exact (ih (i + 1)).cons i
    · simp only [hs, Bool.false_eq_true, if_neg, not_false_iff, List.map_cons]
      rw [createCase_index]
      exact List.perm_middle.trans ((ih (i + 1)).cons i)

/-- The delay positions of the loop started at `i`: after every processed
row except the last. -/
theorem submitGo_delays {A : Type} (env : Env)
    (create : Nat → Payload → Except String A) (rows : List RawRow) (i : Nat) :
    (submitGo env create rows i).delays = List.range' i (rows.length - 1) := by
  induction rows generalizing i with
  | nil => simp [submitGo]
  | cons row rest ih =>
    simp only [submitGo]
    cases rest with
    | nil => simp [submitGo]
    | cons r2 rs =>
      simp only [List.isEmpty_cons, if_neg, Bool.false_eq_true, not_false_iff]
      rw [ih (i + 1)]
      simp only [List.length_cons, Nat.add_sub_cancel]
      rw [List.range'_succ i rs.length 1]

/-- C1.  Every submitted row is attempted and accounted exactly once: for
every configuration, remote oracle and batch, the number of successes plus
the number of failures equals the number of input rows, and the recorded
outcome indices over both lists are a permutation of 0..N-1 — so no row is
dropped and no row's failure (validation or remote) stops later rows. -/
theorem submitAll_accounts_every_row {A : Type} (env : Env)
    (create : Nat → Payload → Except String A) (rows : List RawRow) :
    (submitAll env create rows).processed.length +
        (submitAll env create rows).failures.length = rows.length ∧
    ((submitAll env create rows).processed.map Outcome.index ++
        (submitAll env create rows).failures.map Outcome.index).Perm
      (List.range rows.length) := by
  have hperm := submitGo_index_perm env create rows 0
  rw [List.range_eq_range' rows.length]
  refine ⟨?_, hperm⟩
  have hlen := hperm.length_eq
  simpa using hlen

/-- C5.  For every nonempty batch the pacing delay runs exactly after rows
0..N-2 — once after each row except the last, N-1 times in all, never
after the final row, independently of the per-row outcomes. -/
theorem pacing_delay_positions {A : Type} (env : Env)
    (create : Nat → Payload → Except String A) (rows : List RawRow)
    (h : rows ≠ []) :
    (submitAll env create rows).delays = List.range (rows.length - 1) := by
  rw [List.range_eq_range' (rows.length - 1)]
  exact submitGo_delays env create rows 0

/-- Witness for C5 at a concrete two-row batch and a concrete remote. -/
theorem pacing_delay_positions_witness :
    (([[("a", "b")], [("c", "d")]] : List RawRow) ≠ []) ∧
    (submitAll envNone (fun _ _ => (Except.ok () : Except String Unit))
      [[("a", "b")], [("c", "d")]]).delays = List.range 1 :=
  ⟨by decide,
    pacing_delay_positions envNone (fun _ _ => (Except.ok () : Except String Unit))
      [[("a", "b")], [("c", "d")]] (by decide)⟩

/-! ## Claim C2: missing identifier fields fail before the remote call -/

/-- C2.  For a row whose transformed payload has a falsy litigation or
status identifier, createCase records the failure naming the first missing
field (litigation checked first) and the outcome is the same under every
remote oracle — the create call is never reached. -/
theorem createCase_missing_field {A : Type} (env : Env)
    (create create2 : Nat → Payload → Except String A) (row : RawRow) (i : Nat)
    (h : jsFalsyOpt (assocGet (mapRowToPayload env row) "litigation_id") = true ∨
         jsFalsyOpt (assocGet (mapRowToPayload env row) "status_id") = true) :
    createCase env create row i =
      .failure i
        (if jsFalsyOpt (assocGet (mapRowToPayload env row) "litigation_id") then
          "Missing required field: litigation_id"
        else "Missing required field: status_id") ∧
    createCase env create row i = createCase env create2 row i := by
  by_cases h1 :
      jsFalsyOpt (assocGet (mapRowToPayload env row) "litigation_id") = true
  · refine ⟨?_, ?_⟩ <;> simp [createCase, h1]
  · have h2 : jsFalsyOpt (assocGet (mapRowToPayload env row) "status_id") = true := by
      rcases h with ha | hb
      · exact absurd ha h1
      · exact hb
    simp only [Bool.not_eq_true] at h1
    refine ⟨?_, ?_⟩ <;> simp [createCase, h1, h2]

/-- Witness for C2: a row with no identifier fields at all, checked under a
succeeding and a failing remote oracle. -/
theorem createCase_missing_field_witness :
    (jsFalsyOpt (assocGet (mapRowToPayload envNone [("x", "y")]) "litigation_id")
        = true ∨
      jsFalsyOpt (assocGet (mapRowToPayload envNone [("x", "y")]) "status_id")
        = true) ∧
    (createCase envNone (fun _ _ => (Except.ok () : Except String Unit))
        [("x", "y")] 0 =
      .failure 0
        (if jsFalsyOpt (assocGet (mapRowToPayload envNone [("x", "y")])
            "litigation_id") then
          "Missing required field: litigation_id"
        else "Missing required field: status_id") ∧
      createCase envNone (fun _ _ => (Except.ok () : Except String Unit))
          [("x", "y")] 0 =
        createCase envNone (fun _ _ => (Except.error "boom" : Except String Unit))
          [("x", "y")] 0) :=
  ⟨Or.inl (by decide),
    createCase_missing_field envNone
      (fun _ _ => (Except.ok () : Except String Unit))
      (fun _ _ => (Except.error "boom" : Except String Unit))
      [("x", "y")] 0 (Or.inl (by decide))⟩

/-! ## Claim C10: integer-array items keep a leading numeric prefix -/

/-- takeWhile and dropWhile split an append whose left part satisfies the
predicate everywhere and whose right part starts by failing it. -/
theorem all_takeWhile_append (p : Char → Bool) (l1 l2 : List Char)
    (h1 : l1.all p = true) (h2 : (l2.head?.map p).getD false = false) :
    (l1 ++ l2).takeWhile p = l1 ∧ (l1 ++ l2).dropWhile p = l2 := by
  induction l1 with
  | nil =>
    cases l2 with
    | nil => exact ⟨rfl, rfl⟩
    | cons c r =>
      simp only [Option.getD, Option.map, List.head?] at h2
      constructor
      · simp [List.takeWhile_cons, h2]
      · simp [List.dropWhile_cons, h2]
  | cons c rest ih =>
    simp only [List.all_cons, Bool.and_eq_true] at h1
    obtain ⟨hc, hrest⟩ := h1
    have hr := ih hrest
    constructor
    · simp [List.takeWhile_cons, hc, hr.1]
    · simp [List.dropWhile_cons, hc, hr.2]

/-- C10.  In an integer-array field, an item whose bracket-stripped text is
a run of decimal digits followed by non-digit text parses to the integer
value of that digit prefix and is therefore kept; concretely the raw value
"12abc,foo,[34]" transforms to the array of 12 and 34 — "12abc" is kept as
12 and only "foo", with no leading integer, is dropped. -/
theorem int_array_keeps_leading_integer (ds rest : List Char)
    (h1 : ds ≠ []) (h2 : ds.all isDigit10 = true)
    (h3 : (rest.head?.map isDigit10).getD false = false) :
    jsParseInt (String.mk (ds ++ rest)) = some ((digitsToNat ds : Nat) : Int) ∧
    assocGet (mapRowToPayload envNone [("conditions", "12abc,foo,[34]")])
      "conditions" = some (.arr [.int 12, .int 34]) := by
  refine ⟨?_, rfl⟩
  obtain ⟨d, ds', rfl⟩ : ∃ d ds', ds = d :: ds' := by
    cases ds with
    | nil => exact absurd rfl h1
    | cons d ds' => exact ⟨d, ds', rfl⟩
  have hd : isDigit10 d = true := by
    simp only [List.all_cons, Bool.and_eq_true] at h2
    exact h2.1
  have hdw : jsWs d = false := by
    unfold isDigit10 at hd
    unfold jsWs
    simp only [Bool.and_eq_true, decide_eq_true_eq] at hd
    simp only [Bool.or_eq_false_iff, decide_eq_false_iff_not]
    omega
  have hdm : d ≠ '-' := by
    intro he
    rw [he] at hd
    exact absurd hd (by decide)
  have hdp : d ≠ '+' := by
    intro he
    rw [he] at hd
    exact absurd hd (by decide)
  have hsplit := all_takeWhile_append isDigit10 (d :: ds') rest h2 h3
  have hdrop : (String.mk ((d :: ds') ++ rest)).data.dropWhile jsWs
      = d :: (ds' ++ rest) := by
    show ((d :: ds') ++ rest).dropWhile jsWs = d :: (ds' ++ rest)
    rw [List.cons_append, List.dropWhile_cons, hdw]
    simp
  have htake : (d :: (ds' ++ rest)).takeWhile isDigit10 = d :: ds' := by
    have h := hsplit.1
    rwa [List.cons_append] at h
  simp only [jsParseInt]
  rw [hdrop]
  rw [if_neg (show ¬((d :: (ds' ++ rest)).head? = some '-') by
    simp only [List.head?_cons, Option.some.injEq]; exact hdm)]
  rw [if_neg (show ¬((d :: (ds' ++ rest)).head? = some '+') by
    simp only [List.head?_cons, Option.some.injEq]; exact hdp)]
  rw [htake]
  simp

/-- Witness for C10 at the item "12abc": digit prefix "12", tail "abc". -/
theorem int_array_keeps_leading_integer_witness :
    ((['1', '2'] : List Char) ≠ [] ∧
      (['1', '2'] : List Char).all isDigit10 = true ∧
      ((['a', 'b', 'c'] : List Char).head?.map isDigit10).getD false = false) ∧
    (jsParseInt (String.mk (['1', '2'] ++ ['a', 'b', 'c'])) =
        some ((digitsToNat ['1', '2'] : Nat) : Int) ∧
      assocGet (mapRowToPayload envNone [("conditions", "12abc,foo,[34]")])
        "conditions" = some (.arr [.int 12, .int 34])) :=
  ⟨⟨by decide, by decide, by decide⟩,
    int_array_keeps_leading_integer ['1', '2'] ['a', 'b', 'c']
      (by decide) (by decide) (by decide)⟩

/-! ## Claim C6: empty pages and loop termination -/

/-- C6 counterexample.  The part_002 bulk-fetch variant keeps requesting
pages after an empty page when the response carries a truthy total: with
every page empty but total = 5, three observed iterations request pages 1,
2 and 3 — the empty page 1 did not terminate the loop. -/
theorem bulk_fetch_empty_page_continues :
    ((fun _ => (⟨some [], some 5, none, none⟩ : PageResp)) 1).data =
      some ([] : List CaseRec) ∧
    (bulkFetchCases (fun _ => ⟨some [], some 5, none, none⟩) 3).requests =
      [1, 2, 3] :=
  ⟨rfl, rfl⟩

/-- C6 as amended.  In the fetchAllSimplyConvertCases loop an empty page
always terminates immediately — the empty page's request is the last one —
regardless of any continuation metadata; in the part_002 bulk-fetch variant
an empty page terminates only when the response carries neither a truthy
total nor a truthy last-page indicator (the counterexample shows it
continuing otherwise). -/
theorem empty_page_termination_amended :
    (∀ (pageFn : Nat → PageResp) (fuel page : Nat) (acc : List CaseRec),
      (pageFn page).data.getD [] = [] →
      fetchAllGo pageFn (fuel + 1) page acc = ⟨acc, [page]⟩) ∧
    (∀ (pageFn : Nat → PageResp) (fuel page : Nat) (acc : List CaseRec),
      (pageFn page).data.getD [] = [] →
      truthyNum (pageFn page).total = false →
      truthyNum (pageFn page).last_page = false →
      bulkFetchGo pageFn (fuel + 1) page acc = ⟨acc, [page]⟩) := by
  constructor
  · intro pageFn fuel page acc h
    simp [fetchAllGo, h]
  · intro pageFn fuel page acc h hT hL
    simp [bulkFetchGo, h, hT, hL]

/-! ## Claim C7: the three-field wildcard duplicate matcher -/

/-- The Bool component match agrees with its propositional form. -/
theorem compMatches_iff (want : String) (field : Option String) :
    compMatches want field = true ↔ CompMatch want field := by
  unfold compMatches CompMatch
  cases field with
  | none => simp
  | some s => simp [Bool.or_eq_true, Bool.and_eq_true, beq_iff_eq]

/-- The Bool record match agrees with its propositional form. -/
theorem caseMatchesRow_iff (f l e : String) (c : CaseRec) :
    caseMatchesRow f l e c = true ↔
      CompMatch f c.fname_injured ∧ CompMatch l c.lname_injured ∧
        CompMatch e c.email_injured := by
  unfold caseMatchesRow
  rw [Bool.and_eq_true, Bool.and_eq_true]
  rw [compMatches_iff, compMatches_iff, compMatches_iff]
  tauto

/-- The flagging condition of one row, Bool form versus Prop form. -/
theorem dupFlagged_iff (row : RawRow) (recs : List CaseRec) :
    DupFlagged row recs ↔
      ((rowFname row == "" && rowLname row == "" && rowEmail row == "") = false ∧
        recs.any (caseMatchesRow (rowFname row) (rowLname row) (rowEmail row))
          = true) := by
  unfold DupFlagged
  constructor
  · rintro ⟨hne, c, hc, hm⟩
    constructor
    · rw [Bool.eq_false_iff]
      intro hall
      apply hne
      simp only [Bool.and_eq_true, beq_iff_eq] at hall
      exact ⟨hall.1.1, hall.1.2, hall.2⟩
    · rw [List.any_eq_true]
      exact ⟨c, hc, (caseMatchesRow_iff _ _ _ c).mpr hm⟩
  · rintro ⟨hall, hany⟩
    rw [List.any_eq_true] at hany
    obtain ⟨c, hc, hm⟩ := hany
    refine ⟨?_, c, hc, (caseMatchesRow_iff _ _ _ c).mp hm⟩
    intro ⟨e1, e2, e3⟩
    rw [Bool.eq_false_iff] at hall
    apply hall
    simp [e1, e2, e3]

/-- Membership in the row loop started at `n`. -/
theorem checkDupGo_mem (recs : List CaseRec) (rows : List RawRow) (n i : Nat) :
    i ∈ checkDupGo recs rows n ↔
      ∃ j row, rows.get? j = some row ∧ i = n + j ∧ DupFlagged row recs := by
  induction rows generalizing n with
  | nil => simp [checkDupGo]
  | cons r rest ih =>
    simp only [checkDupGo]
    by_cases hAll : (rowFname r == "" && rowLname r == "" && rowEmail r == "") = true
    · rw [if_pos hAll, ih]
      constructor
      · rintro ⟨j, row, hget, hij, hP⟩
        exact ⟨j + 1, row, by simpa using hget, by omega, hP⟩
      · rintro ⟨j, row, hget, hij, hP⟩
        cases j with
        | zero =>
          simp only [List.get?] at hget
          injection hget with hget
          subst hget
          exact absurd hAll (by rw [(dupFlagged_iff r recs).mp hP |>.1]; simp)
        | succ j =>
          exact ⟨j, row, by simpa using hget, by omega, hP⟩
    · rw [if_neg hAll]
      by_cases hAny :
          recs.any (caseMatchesRow (rowFname r) (rowLname r) (rowEmail r)) = true
      · rw [if_pos hAny]
        simp only [List.mem_cons, ih]
        constructor
        · rintro (rfl | ⟨j, row, hget, hij, hP⟩)
          · refine ⟨0, r, rfl, by omega, ?_⟩
            rw [dupFlagged_iff]
            exact ⟨Bool.eq_false_iff.mpr hAll, hAny⟩
          · exact ⟨j + 1, row, by simpa using hget, by omega, hP⟩
        · rintro ⟨j, row, hget, hij, hP⟩
          cases j with
          | zero => left; omega
          | succ j => right; exact ⟨j, row, by simpa using hget, by omega, hP⟩
      · rw [if_neg hAny, ih]
        constructor
        · rintro ⟨j, row, hget, hij, hP⟩
          exact ⟨j + 1, row, by simpa using hget, by omega, hP⟩
        · rintro ⟨j, row, hget, hij, hP⟩
          cases j with
          | zero =>
            simp only [List.get?] at hget
            injection hget with hget
            subst hget
            exact absurd ((dupFlagged_iff r recs).mp hP |>.2) hAny
          | succ j =>
            exact ⟨j, row, by simpa using hget, by omega, hP⟩

/-- C7 counterexample.  The claim's normalization includes whitespace
trimming, but the cited matcher only lowercases: the row whose first name
is "Jane " (trailing space) satisfies the claim's trimmed match against the
record "Jane" yet the detector flags nothing. -/
theorem duplicate_trim_cex :
    claimedDuplicate [("fname", "Jane ")] [⟨some "Jane", none, none⟩] = true ∧
    checkDuplicates [[("fname", "Jane ")]] [⟨some "Jane", none, none⟩] = [] := by
  constructor
  · rfl
  · rfl

/-- C7 as amended.  A row index is flagged by the part_001 detector exactly
when its row exists, its three derived components (lowercased but NOT
whitespace-trimmed) are not all empty, and some existing record matches
every non-empty component case-insensitively, empty components acting as
wildcards. -/
theorem checkDuplicates_characterization (rows : List RawRow)
    (recs : List CaseRec) (i : Nat) :
    i ∈ checkDuplicates rows recs ↔
      ∃ row, rows.get? i = some row ∧ DupFlagged row recs := by
  unfold checkDuplicates
  rw [checkDupGo_mem]
  constructor
  · rintro ⟨j, row, hget, hij, hP⟩
    exact ⟨row, by simpa [hij] using hget, hP⟩
  · rintro ⟨row, hget, hP⟩
    exact ⟨i, row, hget, by omega, hP⟩

end SCV
